import Mathlib

/-!
Verification of the A2A research platform's communication core.

This file gives a shallow embedding of the authentication, message-queue,
service-registry and orchestration logic of the repository
(src/a2a_research/base_service.py, servers/auth.py, servers/registry.py,
distributed_client.py) and proves the testable properties stated about it.

Modelling conventions:
* Python JSON-able values (the payload dicts handed to json.dumps) are the
  inductive JsonVal / JsonArr / JsonObj below; a Python dict corresponds to
  the assoc sequence of its entries in strictly sorted key order, which is
  exactly the order json.dumps(..., sort_keys=True) serialises.
* hmac.new(secret, msg, sha256) followed by base64.b64encode is abstracted
  as a parameter mac : String -> String -> String (secret, canonical bytes
  to signature text); collision-freeness of the MAC for a fixed secret is
  an explicit injectivity hypothesis where a property needs it.
* Effectful inputs (datetime.utcnow, uuid4, time.time) are passed in as
  explicit arguments.
-/

/- Json values as produced by the repository's payload dicts: the mutual
triple mirrors Python values of type str | int | bool | None | list | dict
(floats are not modelled).  JsonObj is an association sequence of a dict's
entries; a dict is represented by its entries in strictly increasing key
order, matching what json.dumps(..., sort_keys=True) emits. -/
mutual
inductive JsonVal : Type where
  | str (s : String)
  | int (n : Int)
  | bool (b : Bool)
  | null
  | arr (elems : JsonArr)
  | obj (fields : JsonObj)
  deriving DecidableEq
inductive JsonArr : Type where
  | nil
  | cons (v : JsonVal) (tl : JsonArr)
  deriving DecidableEq
inductive JsonObj : Type where
  | nil
  | cons (k : String) (v : JsonVal) (tl : JsonObj)
  deriving DecidableEq
end

/-- Lowercase hex digit character, as Python uses in \uXXXX escapes. -/
def hexDigitChar (n : Nat) : Char :=
  if n < 10 then Char.ofNat (48 + n) else Char.ofNat (87 + n)

/-- Four lowercase hex digits of a code unit, most significant first. -/
def hex4 (n : Nat) : List Char :=
  [hexDigitChar (n / 4096 % 16), hexDigitChar (n / 256 % 16),
   hexDigitChar (n / 16 % 16), hexDigitChar (n % 16)]

/-- Escape of one character in a JSON string literal, exactly as CPython's
json.encoder py_encode_basestring_ascii (ensure_ascii=True, the default used
by the repository): short escapes for quote, backslash and the five control
characters with names, \uXXXX for other control and all non-ASCII BMP
characters, a surrogate pair of \uXXXX escapes for astral characters. -/
def escChar (c : Char) : List Char :=
  if c = '"' then ['\\', '"']
  else if c = '\\' then ['\\', '\\']
  else if c = '\x08' then ['\\', 'b']
  else if c = '\x0c' then ['\\', 'f']
  else if c = '\n' then ['\\', 'n']
  else if c = '\r' then ['\\', 'r']
  else if c = '\t' then ['\\', 't']
  else if c.toNat < 0x20 then '\\' :: 'u' :: hex4 c.toNat
  else if c.toNat < 0x7f then [c]
  else if c.toNat < 0x10000 then '\\' :: 'u' :: hex4 c.toNat
  else '\\' :: 'u' :: hex4 (0xd800 + (c.toNat - 0x10000) / 0x400) ++
       '\\' :: 'u' :: hex4 (0xdc00 + (c.toNat - 0x10000) % 0x400)

/-- Escaped body of a JSON string literal (without the surrounding quotes). -/
def escBody : List Char → List Char
  | [] => []
  | c :: cs => escChar c ++ escBody cs

/-- Decimal digit character. -/
def digitChar10 (n : Nat) : Char := Char.ofNat (48 + n)

/-- Decimal digits of a natural number, most significant first; fuel makes
the recursion structural, any fuel above the number itself is enough. -/
def natCharsAux : Nat → Nat → List Char
  | 0, _ => []
  | fuel + 1, n =>
    if n < 10 then [digitChar10 n]
    else natCharsAux fuel (n / 10) ++ [digitChar10 (n % 10)]

/-- Decimal digits of a natural number, as Python str(n). -/
def natChars (n : Nat) : List Char := natCharsAux (n + 1) n

/-- Decimal rendering of an integer, as Python str(i). -/
def intChars (i : Int) : List Char :=
  if i < 0 then '-' :: natChars (-i).toNat else natChars i.toNat

/- Serialisation of Json values, character-exact to Python
json.dumps(value, sort_keys=True) with its default separators of a comma
plus space between items and a colon plus space after keys, for values whose
dicts are represented in sorted key order (see JsonVal). -/
mutual
def encVal : JsonVal → List Char
  | .str s => '"' :: (escBody s.data ++ ['"'])
  | .int n => intChars n
  | .bool true => ['t', 'r', 'u', 'e']
  | .bool false => ['f', 'a', 'l', 's', 'e']
  | .null => ['n', 'u', 'l', 'l']
  | .arr a => '[' :: encArr a
  | .obj o => '{' :: encObj o
  termination_by structural v => v
def encArr : JsonArr → List Char
  | .nil => [']']
  | .cons v tl => encVal v ++ encArrRest tl
  termination_by structural a => a
def encArrRest : JsonArr → List Char
  | .nil => [']']
  | .cons v tl => ',' :: ' ' :: (encVal v ++ encArrRest tl)
  termination_by structural a => a
def encObj : JsonObj → List Char
  | .nil => ['}']
  | .cons k v tl =>
    '"' :: (escBody k.data ++ '"' :: ':' :: ' ' :: encVal v) ++ encObjRest tl
  termination_by structural o => o
def encObjRest : JsonObj → List Char
  | .nil => ['}']
  | .cons k v tl =>
    ',' :: ' ' ::
      ('"' :: (escBody k.data ++ '"' :: ':' :: ' ' :: encVal v) ++ encObjRest tl)
  termination_by structural o => o
end

/-- An object field rendered as JSON text: quoted escaped key, a colon and a
space (the json.dumps default key separator), then the value. -/
def encField (k : String) (v : JsonVal) : List Char :=
  '"' :: (escBody k.data ++ '"' :: ':' :: ' ' :: encVal v)

/-- The canonical JSON text of a value, as a string. -/
def jsonDumps (v : JsonVal) : String := String.mk (encVal v)

example : jsonDumps (.obj (.cons "a" (.int 1) (.cons "b" (.arr (.cons (.bool true) (.cons .null .nil))) .nil)))
    = "\x7b\"a\": 1, \"b\": [true, null]\x7d" := by decide

example : jsonDumps (.str "x\n\\ \"") = "\"x\\n\\\\ \\\"\"" := by decide

/-! Decoder for the canonical serialisation, used only to prove the encoder
injective (decode of encode returns the value).  It is deliberately lenient
where leniency is harmless. -/

/-- Value of a hex digit character (either case). -/
def parseHexDigit (c : Char) : Option Nat :=
  if 48 ≤ c.toNat ∧ c.toNat ≤ 57 then some (c.toNat - 48)
  else if 97 ≤ c.toNat ∧ c.toNat ≤ 102 then some (c.toNat - 87)
  else if 65 ≤ c.toNat ∧ c.toNat ≤ 70 then some (c.toNat - 55)
  else none

/-- Read four hex digits; return their value and the rest of the input. -/
def parseHex4 : List Char → Option (Nat × List Char)
  | a :: b :: c :: d :: r =>
    match parseHexDigit a, parseHexDigit b, parseHexDigit c, parseHexDigit d with
    | some x, some y, some z, some w => some (x * 4096 + y * 256 + z * 16 + w, r)
    | _, _, _, _ => none
  | _ => none

/-- Prepend a decoded character to the result of decoding the remainder. -/
def pushChar (c : Char) (o : Option (List Char × List Char)) :
    Option (List Char × List Char) :=
  o.map (fun p => (c :: p.1, p.2))

/-- Decode the body of a JSON string literal up to its closing quote.
Fuel bounds the recursion depth; any fuel larger than the input length is
enough. -/
def decStr : Nat → List Char → Option (List Char × List Char)
  | 0, _ => none
  | _ + 1, [] => none
  | fuel + 1, c :: r =>
    if c = '"' then some ([], r)
    else if c = '\\' then
      match r with
      | [] => none
      | e :: t =>
        if e = '"' then pushChar '"' (decStr fuel t)
        else if e = '\\' then pushChar '\\' (decStr fuel t)
        else if e = 'b' then pushChar '\x08' (decStr fuel t)
        else if e = 'f' then pushChar '\x0c' (decStr fuel t)
        else if e = 'n' then pushChar '\n' (decStr fuel t)
        else if e = 'r' then pushChar '\r' (decStr fuel t)
        else if e = 't' then pushChar '\t' (decStr fuel t)
        else if e = 'u' then
          match parseHex4 t with
          | none => none
          | some (v, t1) =>
            if 0xd800 ≤ v ∧ v ≤ 0xdbff then
              match t1 with
              | '\\' :: 'u' :: t2 =>
                match parseHex4 t2 with
                | none => none
                | some (w, t3) =>
                  if 0xdc00 ≤ w ∧ w ≤ 0xdfff then
                    pushChar (Char.ofNat (0x10000 + (v - 0xd800) * 0x400 + (w - 0xdc00)))
                      (decStr fuel t3)
                  else none
              | _ => none
            else if 0xdc00 ≤ v ∧ v ≤ 0xdfff then none
            else pushChar (Char.ofNat v) (decStr fuel t1)
        else none
    else pushChar c (decStr fuel r)

/-- Numeric value of a list of decimal digit characters. -/
def digitsVal (ds : List Char) : Nat :=
  ds.foldl (fun a c => a * 10 + (c.toNat - 48)) 0

/-- Read a maximal run of decimal digits. -/
def decNat (l : List Char) : Option (Nat × List Char) :=
  match l.takeWhile Char.isDigit with
  | [] => none
  | ds => some (digitsVal ds, l.dropWhile Char.isDigit)

mutual
/-- Decode one JSON value from the front of the input. -/
def decVal : Nat → List Char → Option (JsonVal × List Char)
  | 0, _ => none
  | _ + 1, [] => none
  | fuel + 1, c :: r =>
    if c = '"' then (decStr fuel r).map (fun p => (.str (String.mk p.1), p.2))
    else if c = 't' then
      match r with
      | 'r' :: 'u' :: 'e' :: r1 => some (.bool true, r1)
      | _ => none
    else if c = 'f' then
      match r with
      | 'a' :: 'l' :: 's' :: 'e' :: r1 => some (.bool false, r1)
      | _ => none
    else if c = 'n' then
      match r with
      | 'u' :: 'l' :: 'l' :: r1 => some (.null, r1)
      | _ => none
    else if c = '[' then
      if r.head? = some ']' then some (.arr .nil, r.tail)
      else
        match decVal fuel r with
        | none => none
        | some (v, r1) =>
          match decArrRest fuel r1 with
          | none => none
          | some (tl, r2) => some (.arr (.cons v tl), r2)
    else if c = '{' then
      if r.head? = some '}' then some (.obj .nil, r.tail)
      else
        match decField fuel r with
        | none => none
        | some (k, v, r1) =>
          match decObjRest fuel r1 with
          | none => none
          | some (tl, r2) => some (.obj (.cons k v tl), r2)
    else if c = '-' then
      match decNat r with
      | none => none
      | some (n, r1) => some (.int (-(n : Int)), r1)
    else if c.isDigit then
      match decNat (c :: r) with
      | none => none
      | some (n, r1) => some (.int (n : Int), r1)
    else none
  termination_by structural fuel => fuel
/-- Decode one key/value field of a JSON object. -/
def decField : Nat → List Char → Option (String × JsonVal × List Char)
  | 0, _ => none
  | _ + 1, [] => none
  | fuel + 1, c :: r =>
    if c = '"' then
      match decStr fuel r with
      | none => none
      | some (k, r1) =>
        match r1 with
        | ':' :: ' ' :: r2 =>
          match decVal fuel r2 with
          | none => none
          | some (v, r3) => some (String.mk k, v, r3)
        | _ => none
    else none
  termination_by structural fuel => fuel
/-- Decode the continuation of a JSON array after one element. -/
def decArrRest : Nat → List Char → Option (JsonArr × List Char)
  | 0, _ => none
  | _ + 1, [] => none
  | fuel + 1, c :: r =>
    if c = ']' then some (.nil, r)
    else if c = ',' then
      match r with
      | ' ' :: r1 =>
        match decVal fuel r1 with
        | none => none
        | some (v, r2) =>
          match decArrRest fuel r2 with
          | none => none
          | some (tl, r3) => some (.cons v tl, r3)
      | _ => none
    else none
  termination_by structural fuel => fuel
/-- Decode the continuation of a JSON object after one field. -/
def decObjRest : Nat → List Char → Option (JsonObj × List Char)
  | 0, _ => none
  | _ + 1, [] => none
  | fuel + 1, c :: r =>
    if c = '}' then some (.nil, r)
    else if c = ',' then
      match r with
      | ' ' :: r1 =>
        match decField fuel r1 with
        | none => none
        | some (k, v, r2) =>
          match decObjRest fuel r2 with
          | none => none
          | some (tl, r3) => some (.cons k v tl, r3)
      | _ => none
    else none
  termination_by structural fuel => fuel
end

example : jsonDumps (.str "é € 😀 \x07 \x7f")
    = "\"\\u00e9 \\u20ac \\ud83d\\ude00 \\u0007 \\u007f\"" := by decide

example : jsonDumps (.int (-42)) = "-42" := by decide

example : jsonDumps (.int 1234567890) = "1234567890" := by decide

example : jsonDumps (.int 0) = "0" := by decide

/-! Round-trip lemmas: decoding an encoding returns the original value.
These give injectivity of the serialisation, the fact the message-level
signature scheme relies on. -/

theorem toNat_ofNat_of_valid {n : Nat} (h : n.isValidChar) :
    (Char.ofNat n).toNat = n := by
  simp only [Char.ofNat, h, dif_pos, Char.ofNatAux, Char.toNat]
  rfl

theorem char_valid_nat (c : Char) :
    c.toNat < 0xd800 ∨ (0xdfff < c.toNat ∧ c.toNat < 0x110000) := c.valid

theorem parseHexDigit_hexDigitChar : ∀ k, k < 16 →
    parseHexDigit (hexDigitChar k) = some k := by decide

theorem parseHex4_hex4 (n : Nat) (h : n < 65536) (r : List Char) :
    parseHex4 (hex4 n ++ r) = some (n, r) := by
  have h1 := parseHexDigit_hexDigitChar (n / 4096 % 16) (by omega)
  have h2 := parseHexDigit_hexDigitChar (n / 256 % 16) (by omega)
  have h3 := parseHexDigit_hexDigitChar (n / 16 % 16) (by omega)
  have h4 := parseHexDigit_hexDigitChar (n % 16) (by omega)
  have harith : n / 4096 % 16 * 4096 + n / 256 % 16 * 256 + n / 16 % 16 * 16 + n % 16 = n := by
    omega
  simp only [hex4, List.cons_append, List.nil_append, parseHex4, h1, h2, h3, h4, harith]

theorem escChar_length_pos (c : Char) : 1 ≤ (escChar c).length := by
  rw [escChar]
  repeat' split
  all_goals simp [hex4]

theorem decStr_uescape (fuel : Nat) (v : Nat) (tail : List Char)
    (h1 : v < 65536) (h2 : ¬(0xd800 ≤ v ∧ v ≤ 0xdbff)) (h3 : ¬(0xdc00 ≤ v ∧ v ≤ 0xdfff)) :
    decStr (fuel + 1) ('\\' :: 'u' :: (hex4 v ++ tail)) =
      pushChar (Char.ofNat v) (decStr fuel tail) := by
  have hp := parseHex4_hex4 v h1 tail
  simp [decStr, hp, h2, h3]

theorem decStr_surrogate (fuel : Nat) (v w : Nat) (tail : List Char)
    (hv : 0xd800 ≤ v ∧ v ≤ 0xdbff) (hw : 0xdc00 ≤ w ∧ w ≤ 0xdfff) :
    decStr (fuel + 1) ('\\' :: 'u' :: (hex4 v ++ ('\\' :: 'u' :: (hex4 w ++ tail)))) =
      pushChar (Char.ofNat (0x10000 + (v - 0xd800) * 0x400 + (w - 0xdc00)))
        (decStr fuel tail) := by
  have hpv := parseHex4_hex4 v (by omega) ('\\' :: 'u' :: (hex4 w ++ tail))
  have hpw := parseHex4_hex4 w (by omega) tail
  simp [decStr, hpv, hpw, hv, hw]

theorem decStr_escChar (fuel : Nat) (c : Char) (tail : List Char) :
    decStr (fuel + 1) (escChar c ++ tail) = pushChar c (decStr fuel tail) := by
  rw [escChar]
  split
  next h1 => subst h1; simp [decStr]
  next h1 =>
  split
  next h2 => subst h2; simp [decStr]
  next h2 =>
  split
  next h3 => subst h3; simp [decStr]
  next h3 =>
  split
  next h4 => subst h4; simp [decStr]
  next h4 =>
  split
  next h5 => subst h5; simp [decStr]
  next h5 =>
  split
  next h6 => subst h6; simp [decStr]
  next h6 =>
  split
  next h7 => subst h7; simp [decStr]
  next h7 =>
  split
  next h8 =>
    simp only [List.cons_append]
    rw [decStr_uescape fuel c.toNat tail (by omega) (by omega) (by omega), Char.ofNat_toNat]
  next h8 =>
  split
  next h9 =>
    simp only [List.cons_append, List.nil_append, decStr, if_neg h1, if_neg h2]
    rfl
  next h9 =>
  split
  next h10 =>
    have hv := char_valid_nat c
    simp only [List.cons_append]
    rw [decStr_uescape fuel c.toNat tail (by omega) (by omega) (by omega), Char.ofNat_toNat]
  next h10 =>
    have hv := char_valid_nat c
    simp only [List.cons_append, List.append_assoc]
    rw [decStr_surrogate fuel _ _ tail (by constructor <;> omega) (by constructor <;> omega)]
    rw [show 0x10000 + (0xd800 + (c.toNat - 0x10000) / 0x400 - 0xd800) * 0x400 +
          (0xdc00 + (c.toNat - 0x10000) % 0x400 - 0xdc00) = c.toNat by omega]
    rw [Char.ofNat_toNat]

theorem decStr_round (fuel : Nat) :
    ∀ cs rest, (escBody cs).length + 1 + rest.length ≤ fuel →
      decStr fuel (escBody cs ++ '"' :: rest) = some (cs, rest) := by
  induction fuel with
  | zero => intro cs rest h; omega
  | succ fuel ih =>
    intro cs rest hlen
    cases cs with
    | nil => simp [escBody, decStr]
    | cons c cs =>
      have hsub : (escBody cs).length + 1 + rest.length ≤ fuel := by
        have := escChar_length_pos c
        simp only [escBody, List.length_append] at hlen
        omega
      simp only [escBody, List.append_assoc, decStr_escChar, ih cs rest hsub, pushChar]
      rfl

theorem natCharsAux_irrel : ∀ f1 f2 n, n < f1 → n < f2 →
    natCharsAux f1 n = natCharsAux f2 n := by
  intro f1
  induction f1 with
  | zero => intro f2 n h; omega
  | succ f1 ih =>
    intro f2 n h1 h2
    cases f2 with
    | zero => omega
    | succ f2 =>
      simp only [natCharsAux]
      split
      · rfl
      · next hn => rw [ih f2 (n / 10) (by omega) (by omega)]

theorem natChars_unfold (n : Nat) :
    natChars n = if n < 10 then [digitChar10 n]
                 else natChars (n / 10) ++ [digitChar10 (n % 10)] := by
  show natCharsAux (n + 1) n = _
  simp only [natCharsAux]
  split
  · rfl
  · next hn => rw [natCharsAux_irrel n (n / 10 + 1) (n / 10) (by omega) (by omega)]; rfl

theorem digitChar10_isDigit : ∀ k, k < 10 → (digitChar10 k).isDigit = true := by decide

theorem digitChar10_toNat : ∀ k, k < 10 → (digitChar10 k).toNat = 48 + k := by decide

theorem natChars_ne_nil (n : Nat) : natChars n ≠ [] := by
  induction n using Nat.strong_induction_on with
  | _ n ih =>
    rw [natChars_unfold]
    split
    · simp
    · next h => simp

theorem natChars_digits (n : Nat) : ∀ c ∈ natChars n, c.isDigit = true := by
  induction n using Nat.strong_induction_on with
  | _ n ih =>
    rw [natChars_unfold]
    split
    · next h => simp [digitChar10_isDigit n h]
    · next h =>
      intro c hc
      rcases List.mem_append.mp hc with hm | hm
      · exact ih (n / 10) (Nat.div_lt_self (by omega) (by omega)) c hm
      · simp only [List.mem_singleton] at hm
        subst hm
        exact digitChar10_isDigit (n % 10) (by omega)

theorem digitsVal_append_digit (l : List Char) (d : Char) :
    digitsVal (l ++ [d]) = digitsVal l * 10 + (d.toNat - 48) := by
  simp [digitsVal, List.foldl_append]

theorem digitsVal_natChars (n : Nat) : digitsVal (natChars n) = n := by
  induction n using Nat.strong_induction_on with
  | _ n ih =>
    rw [natChars_unfold]
    split
    · next h => simp [digitsVal, digitChar10_toNat n h]
    · next h =>
      rw [digitsVal_append_digit, ih (n / 10) (Nat.div_lt_self (by omega) (by omega)),
        digitChar10_toNat (n % 10) (by omega)]
      omega

/-- The continuation after a complete token must not begin with a digit
(inside JSON text it begins with a comma or a closing bracket, or is empty),
so that greedy number reading stops at the token border. -/
def noDigitHead : List Char → Prop
  | [] => True
  | c :: _ => c.isDigit = false

theorem takeWhile_all_append (p : Char → Bool) (l r : List Char)
    (h : ∀ c ∈ l, p c = true) :
    (l ++ r).takeWhile p = l ++ r.takeWhile p := by
  induction l with
  | nil => rfl
  | cons c cs ih =>
    simp only [List.cons_append, List.takeWhile_cons, h c (by simp)]
    rw [ih (fun x hx => h x (by simp [hx]))]
    simp

theorem dropWhile_all_append (p : Char → Bool) (l r : List Char)
    (h : ∀ c ∈ l, p c = true) :
    (l ++ r).dropWhile p = r.dropWhile p := by
  induction l with
  | nil => rfl
  | cons c cs ih =>
    simp only [List.cons_append, List.dropWhile_cons, h c (by simp)]
    rw [ih (fun x hx => h x (by simp [hx]))]
    simp

theorem takeWhile_isDigit_eq_nil (r : List Char) (h : noDigitHead r) :
    r.takeWhile Char.isDigit = [] := by
  cases r with
  | nil => rfl
  | cons c cs => simp [List.takeWhile_cons, noDigitHead] at h ⊢; simp [h]

theorem dropWhile_isDigit_eq_self (r : List Char) (h : noDigitHead r) :
    r.dropWhile Char.isDigit = r := by
  cases r with
  | nil => rfl
  | cons c cs => simp [List.dropWhile_cons, noDigitHead] at h ⊢; simp [h]

theorem decNat_natChars (n : Nat) (rest : List Char) (hrest : noDigitHead rest) :
    decNat (natChars n ++ rest) = some (n, rest) := by
  obtain ⟨d, ds, hds⟩ := List.exists_cons_of_ne_nil (natChars_ne_nil n)
  have htake : (natChars n ++ rest).takeWhile Char.isDigit = natChars n := by
    rw [takeWhile_all_append _ _ _ (natChars_digits n),
      takeWhile_isDigit_eq_nil rest hrest, List.append_nil]
  have hdrop : (natChars n ++ rest).dropWhile Char.isDigit = rest := by
    rw [dropWhile_all_append _ _ _ (natChars_digits n),
      dropWhile_isDigit_eq_self rest hrest]
  have hval : digitsVal (d :: ds) = n := by rw [← hds, digitsVal_natChars]
  unfold decNat
  rw [htake, hdrop, hds]
  simp [hval]

/-- First characters a serialised JSON value can start with. -/
def jsonHead (c : Char) : Prop :=
  c = '"' ∨ c = 't' ∨ c = 'f' ∨ c = 'n' ∨ c = '[' ∨ c = '{' ∨ c = '-' ∨ c.isDigit = true

theorem encVal_head (v : JsonVal) : ∃ c t, encVal v = c :: t ∧ jsonHead c := by
  cases v with
  | str s => exact ⟨'"', _, rfl, Or.inl rfl⟩
  | int n =>
    show ∃ c t, intChars n = c :: t ∧ jsonHead c
    unfold intChars
    split
    · exact ⟨'-', _, rfl, by simp [jsonHead]⟩
    · obtain ⟨d, ds, hds⟩ := List.exists_cons_of_ne_nil (natChars_ne_nil n.toNat)
      refine ⟨d, ds, hds, Or.inr (Or.inr (Or.inr (Or.inr (Or.inr (Or.inr (Or.inr ?_))))))⟩
      exact natChars_digits n.toNat d (by rw [hds]; simp)
  | bool b => cases b with
    | true => exact ⟨'t', _, rfl, by simp [jsonHead]⟩
    | false => exact ⟨'f', _, rfl, by simp [jsonHead]⟩
  | null => exact ⟨'n', _, rfl, by simp [jsonHead]⟩
  | arr a => exact ⟨'[', _, rfl, by simp [jsonHead]⟩
  | obj o => exact ⟨'{', _, rfl, by simp [jsonHead]⟩

theorem jsonHead_ne_rbracket {c : Char} (h : jsonHead c) : c ≠ ']' := by
  rcases h with h | h | h | h | h | h | h | h <;> first
    | (subst h; decide)
    | (rintro rfl; exact absurd h (by decide))

theorem jsonHead_ne_rbrace {c : Char} (h : jsonHead c) : c ≠ '}' := by
  rcases h with h | h | h | h | h | h | h | h <;> first
    | (subst h; decide)
    | (rintro rfl; exact absurd h (by decide))

theorem encVal_length_pos (v : JsonVal) : 1 ≤ (encVal v).length := by
  obtain ⟨c, t, hct, _⟩ := encVal_head v
  simp [hct]

theorem encArrRest_length_pos (a : JsonArr) : 1 ≤ (encArrRest a).length := by
  cases a <;> simp [encArrRest]

theorem encObjRest_length_pos (o : JsonObj) : 1 ≤ (encObjRest o).length := by
  cases o <;> simp [encObjRest]

theorem noDigitHead_encArrRest (a : JsonArr) (r : List Char) :
    noDigitHead (encArrRest a ++ r) := by
  cases a <;> simp [encArrRest, noDigitHead]

theorem noDigitHead_encObjRest (o : JsonObj) (r : List Char) :
    noDigitHead (encObjRest o ++ r) := by
  cases o <;> simp [encObjRest, noDigitHead]

theorem isDigit_excl (c : Char) (h : c.isDigit = true) :
    ¬c = '"' ∧ ¬c = 't' ∧ ¬c = 'f' ∧ ¬c = 'n' ∧ ¬c = '[' ∧ ¬c = '{' ∧ ¬c = '-' := by
  refine ⟨?_, ?_, ?_, ?_, ?_, ?_, ?_⟩ <;> (rintro rfl; exact absurd h (by decide))

theorem decVal_digit (fuel : Nat) (c : Char) (r : List Char) (h : c.isDigit = true) :
    decVal (fuel + 1) (c :: r) =
      match decNat (c :: r) with
      | none => none
      | some (n, r1) => some (.int (n : Int), r1) := by
  obtain ⟨h1, h2, h3, h4, h5, h6, h7⟩ := isDigit_excl c h
  simp only [decVal, if_neg h1, if_neg h2, if_neg h3, if_neg h4, if_neg h5, if_neg h6,
    if_neg h7, if_pos h]

theorem encObj_cons (k : String) (v : JsonVal) (tl : JsonObj) :
    encObj (.cons k v tl) = encField k v ++ encObjRest tl := rfl

theorem encField_length_pos (k : String) (v : JsonVal) :
    1 ≤ (encField k v).length := by
  simp [encField]

theorem dec_round (fuel : Nat) :
    (∀ (v : JsonVal) (rest : List Char),
      (encVal v ++ rest).length ≤ fuel → noDigitHead rest →
      decVal fuel (encVal v ++ rest) = some (v, rest)) ∧
    (∀ (k : String) (v : JsonVal) (rest : List Char),
      (encField k v ++ rest).length ≤ fuel → noDigitHead rest →
      decField fuel (encField k v ++ rest) = some (k, v, rest)) ∧
    (∀ (a : JsonArr) (rest : List Char),
      (encArrRest a ++ rest).length ≤ fuel → noDigitHead rest →
      decArrRest fuel (encArrRest a ++ rest) = some (a, rest)) ∧
    (∀ (o : JsonObj) (rest : List Char),
      (encObjRest o ++ rest).length ≤ fuel → noDigitHead rest →
      decObjRest fuel (encObjRest o ++ rest) = some (o, rest)) := by
  induction fuel with
  | zero =>
    refine ⟨fun v rest hlen _ => ?_, fun k v rest hlen _ => ?_,
            fun a rest hlen _ => ?_, fun o rest hlen _ => ?_⟩
    · have := encVal_length_pos v
      rw [List.length_append] at hlen
      omega
    · have := encField_length_pos k v
      rw [List.length_append] at hlen
      omega
    · have := encArrRest_length_pos a
      rw [List.length_append] at hlen
      omega
    · have := encObjRest_length_pos o
      rw [List.length_append] at hlen
      omega
  | succ fuel ih =>
    obtain ⟨ihV, ihF, ihA, ihO⟩ := ih
    refine ⟨fun v rest hlen hrest => ?_, fun k v rest hlen hrest => ?_,
            fun a rest hlen hrest => ?_, fun o rest hlen hrest => ?_⟩
    · -- values
      cases v with
      | str s =>
        have hS := decStr_round fuel s.data rest (by
          simp only [encVal, List.length_append, List.length_cons] at hlen
          omega)
        simp only [encVal, List.cons_append, List.append_assoc, List.singleton_append]
        simp [decVal, hS]
      | int n =>
        show decVal (fuel + 1) (intChars n ++ rest) = some (.int n, rest)
        by_cases hneg : n < 0
        · rw [intChars, if_pos hneg]
          simp only [List.cons_append]
          simp [decVal]
          rw [decNat_natChars _ rest hrest]
          show some (JsonVal.int (-(((-n).toNat : Nat) : Int)), rest) = some (JsonVal.int n, rest)
          rw [show -(((-n).toNat : Nat) : Int) = n from by omega]
        · rw [intChars, if_neg hneg]
          obtain ⟨d, ds, hds⟩ := List.exists_cons_of_ne_nil (natChars_ne_nil n.toNat)
          have hd : d.isDigit = true := natChars_digits n.toNat d (by rw [hds]; simp)
          rw [hds, List.cons_append, decVal_digit fuel d _ hd, ← List.cons_append, ← hds,
            decNat_natChars _ rest hrest]
          have hn : ((n.toNat : Nat) : Int) = n := by omega
          simp [hn]
      | bool b =>
        cases b with
        | true =>
          simp only [encVal, List.cons_append]
          simp [decVal]
        | false =>
          simp only [encVal, List.cons_append]
          simp [decVal]
      | null =>
        simp only [encVal, List.cons_append]
        simp [decVal]
      | arr a =>
        cases a with
        | nil =>
          simp only [encVal, encArr, List.cons_append]
          simp [decVal]
        | cons v tl =>
          have hlen1 : (encVal v ++ (encArrRest tl ++ rest)).length ≤ fuel := by
            simp only [encVal, encArr, List.length_append, List.length_cons] at hlen ⊢
            omega
          have hlen2 : (encArrRest tl ++ rest).length ≤ fuel := by
            have := encVal_length_pos v
            simp only [encVal, encArr, List.length_append, List.length_cons] at hlen ⊢
            omega
          have hV := ihV v (encArrRest tl ++ rest) hlen1 (noDigitHead_encArrRest tl rest)
          have hA := ihA tl rest hlen2 hrest
          obtain ⟨c0, t0, hc0, hhead⟩ := encVal_head v
          have hx1 : ¬(encVal v).head? = some ']' := by
            rw [hc0]
            simp only [List.head?_cons, Option.some.injEq]
            exact jsonHead_ne_rbracket hhead
          have hx2 : encVal v ≠ [] := by rw [hc0]; simp
          simp only [encVal, encArr, List.cons_append, List.append_assoc]
          simp [decVal, hx1, hx2, hV, hA]
      | obj o =>
        cases o with
        | nil =>
          simp only [encVal, encObj, List.cons_append]
          simp [decVal]
        | cons k v tl =>
          have hlen1 : (encField k v ++ (encObjRest tl ++ rest)).length ≤ fuel := by
            simp only [encVal, encObj_cons, encField, List.length_append,
              List.length_cons] at hlen ⊢
            omega
          have hlen2 : (encObjRest tl ++ rest).length ≤ fuel := by
            simp only [encVal, encObj_cons, encField, List.length_append,
              List.length_cons] at hlen ⊢
            omega
          have hF := ihF k v (encObjRest tl ++ rest) hlen1 (noDigitHead_encObjRest tl rest)
          have hO := ihO tl rest hlen2 hrest
          have hx1 : ¬(encField k v).head? = some '}' := by simp [encField]
          have hx2 : encField k v ≠ [] := by simp [encField]
          rw [show encVal (.obj (.cons k v tl)) = '{' :: (encField k v ++ encObjRest tl)
            from rfl]
          simp only [List.cons_append, List.append_assoc]
          simp [decVal, hx1, hx2, hF, hO]
    · -- object fields
      have hlenstr : (escBody k.data).length + 1 +
          (':' :: ' ' :: (encVal v ++ rest)).length ≤ fuel := by
        simp only [encField, List.length_append, List.length_cons] at hlen
        simp only [List.length_cons, List.length_append]
        omega
      have hS := decStr_round fuel k.data (':' :: ' ' :: (encVal v ++ rest)) hlenstr
      have hlenV : (encVal v ++ rest).length ≤ fuel := by
        simp only [encField, List.length_append, List.length_cons] at hlen
        simp only [List.length_append]
        omega
      have hV := ihV v rest hlenV hrest
      simp only [encField, List.cons_append, List.append_assoc]
      simp [decField, hS, hV]
    · -- array continuations
      cases a with
      | nil => simp [encArrRest, decArrRest]
      | cons v tl =>
        have hlen1 : (encVal v ++ (encArrRest tl ++ rest)).length ≤ fuel := by
          simp only [encArrRest, List.length_append, List.length_cons] at hlen ⊢
          omega
        have hlen2 : (encArrRest tl ++ rest).length ≤ fuel := by
          have := encVal_length_pos v
          simp only [encArrRest, List.length_append, List.length_cons] at hlen ⊢
          omega
        have hV := ihV v (encArrRest tl ++ rest) hlen1 (noDigitHead_encArrRest tl rest)
        have hA := ihA tl rest hlen2 hrest
        simp only [encArrRest, List.cons_append, List.append_assoc]
        simp [decArrRest, hV, hA]
    · -- object continuations
      cases o with
      | nil => simp [encObjRest, decObjRest]
      | cons k v tl =>
        have hlen1 : (encField k v ++ (encObjRest tl ++ rest)).length ≤ fuel := by
          simp only [encObjRest, encField, List.length_append, List.length_cons] at hlen ⊢
          omega
        have hlen2 : (encObjRest tl ++ rest).length ≤ fuel := by
          simp only [encObjRest, encField, List.length_append, List.length_cons] at hlen ⊢
          omega
        have hF := ihF k v (encObjRest tl ++ rest) hlen1 (noDigitHead_encObjRest tl rest)
        have hO := ihO tl rest hlen2 hrest
        rw [show encObjRest (.cons k v tl) = ',' :: ' ' :: (encField k v ++ encObjRest tl)
          from rfl]
        simp only [List.cons_append, List.append_assoc]
        simp [decObjRest, hF, hO]

theorem noDigitHead_nil : noDigitHead [] := trivial

theorem encVal_inj {v1 v2 : JsonVal} (h : encVal v1 = encVal v2) : v1 = v2 := by
  have l1 := (dec_round (encVal v1).length).1 v1 [] (by simp) noDigitHead_nil
  have l2 := (dec_round (encVal v1).length).1 v2 [] (by rw [← h]; simp) noDigitHead_nil
  rw [← h] at l2
  have h2 := l1.symm.trans l2
  simp only [Option.some.injEq, Prod.mk.injEq, and_true] at h2
  exact h2

theorem jsonDumps_inj {v1 v2 : JsonVal} (h : jsonDumps v1 = jsonDumps v2) : v1 = v2 :=
  encVal_inj (congrArg String.data h)

/-!
Model of src/a2a_research/base_service.py.

A2AService holds service_name, shared_secret, message_handlers (a dict from
message-type string to handler) and an asyncio message_queue; the queue is
modelled as the list of enqueued messages in arrival (FIFO) order, and the
handler table as an association list with unique keys.  The HMAC-SHA256 /
base64 pipeline is a parameter mac : String -> String -> String taking the
shared secret and the canonical serialised bytes.
-/

/-- Model of models.A2AMessage: the envelope dataclass. -/
structure A2AMessage where
  id : String
  sender : String
  recipient : String
  payload : JsonObj
  timestamp : String
  signature : Option String
  deriving DecidableEq

/-- The message_data dict built by A2AService.sign_message, in the key order
json.dumps(..., sort_keys=True) serialises it (id < payload < recipient <
sender < timestamp). -/
def messageData (m : A2AMessage) : JsonVal :=
  .obj (.cons "id" (.str m.id)
    (.cons "payload" (.obj m.payload)
      (.cons "recipient" (.str m.recipient)
        (.cons "sender" (.str m.sender)
          (.cons "timestamp" (.str m.timestamp) .nil)))))

/-- Model of A2AService.sign_message: HMAC-SHA256 of the canonical JSON of
the five addressed fields under the shared secret, base64-encoded; hmac and
base64 are abstracted as mac. -/
def sign_message (mac : String → String → String) (secret : String)
    (m : A2AMessage) : String :=
  mac secret (jsonDumps (messageData m))

/-- Python exception kinds the modelled code can raise past its own
handlers. -/
inductive PyError where
  | typeError
  deriving DecidableEq

instance {ε α : Type} [DecidableEq ε] [DecidableEq α] :
    DecidableEq (Except ε α) := fun x y =>
  match x, y with
  | .ok a, .ok b =>
    if h : a = b then .isTrue (by rw [h])
    else .isFalse (fun hh => h (Except.ok.inj hh))
  | .error a, .error b =>
    if h : a = b then .isTrue (by rw [h])
    else .isFalse (fun hh => h (Except.error.inj hh))
  | .ok _, .error _ => .isFalse (fun hh => Except.noConfusion hh)
  | .error _, .ok _ => .isFalse (fun hh => Except.noConfusion hh)

/-- Does a Python str hold only ASCII code points (str.isascii)? -/
def isAscii (s : String) : Bool :=
  s.data.all (fun c => c.toNat < 128)

/-- Model of hmac.compare_digest on two str arguments: CPython refuses
non-ASCII strings ("comparing strings with non-ASCII characters is not
supported"), raising TypeError; on ASCII strings it is (constant-time)
equality. -/
def compare_digest (a b : String) : Except PyError Bool :=
  if isAscii a && isAscii b then .ok (a == b) else .error .typeError

/-- Model of A2AService.verify_message: a missing signature (None) or an
empty signature string is falsy in Python, so verification fails before
compare_digest runs; otherwise hmac.compare_digest compares the recomputed
signature with the attached one and can raise TypeError (propagated) when
either string is non-ASCII. -/
def verify_message (mac : String → String → String) (secret : String)
    (m : A2AMessage) : Except PyError Bool :=
  match m.signature with
  | none => .ok false
  | some s =>
    if s = "" then .ok false else compare_digest (sign_message mac secret m) s

/-- Model of A2AService.create_message: stamp the fields (the uuid4 id and
utcnow timestamp are passed in), then attach the signature computed over
them. -/
def create_message (mac : String → String → String) (secret : String)
    (service_name msgId recipient : String) (payload : JsonObj)
    (timestamp : String) : A2AMessage :=
  let m : A2AMessage :=
    { id := msgId, sender := service_name, recipient := recipient,
      payload := payload, timestamp := timestamp, signature := none }
  { m with signature := some (sign_message mac secret m) }

/-- Model of A2AService.receive_message acting on the message queue: a
message whose verification returns False is dropped (a security diagnostic
is printed) and the queue is unchanged; a verified message is enqueued at
the back.  receive_message has no try/except, so an exception raised inside
verify_message (compare_digest's TypeError on a non-ASCII signature)
escapes to the caller. -/
def receive_message (mac : String → String → String) (secret : String)
    (queue : List A2AMessage) (m : A2AMessage) :
    Except PyError (List A2AMessage) :=
  match verify_message mac secret m with
  | .error e => .error e
  | .ok false => .ok queue
  | .ok true => .ok (queue ++ [m])

/-- Handler table of one service: message-type string to handler; a handler
returns ok or raises (Except.error), as application handlers may throw. -/
def Handlers (ε : Type) : Type := List (String × (A2AMessage → Except ε Unit))

/-- Association-list lookup, as Python dict membership plus indexing. -/
def dictGet {α : Type} (k : String) : List (String × α) → Option α
  | [] => none
  | (k1, v) :: tl => if k1 = k then some v else dictGet k tl

/-- Model of message.payload.get(\x27type\x27, \x27unknown\x27) in
A2AService.process_messages: the payload's type field, or the literal string
'unknown' when the payload has no such key. -/
def msgType (m : A2AMessage) : JsonVal :=
  (objGet m.payload "type").getD (.str "unknown")
where
  objGet : JsonObj → String → Option JsonVal
    | .nil, _ => none
    | .cons k v tl, key => if k = key then some v else objGet tl key

/-- Handler lookup: message_type in self.message_handlers.  Handler keys are
strings, so a non-string type value never matches. -/
def handlerFor {ε : Type} (hs : Handlers ε) (t : JsonVal) :
    Option (A2AMessage → Except ε Unit) :=
  match t with
  | .str s => dictGet s hs
  | _ => none

/-- One observable outcome of the dispatch loop for one queued message. -/
inductive DispatchEvent (ε : Type) where
  | invoked (m : A2AMessage) (result : Except ε Unit)
  | noHandler (m : A2AMessage)

/-- Dispatch of a single queued message in A2AService.process_messages: look
up the handler for the message type; invoke it if present (recording its
outcome; an exception is caught by the loop), otherwise record the
no-handler diagnostic. -/
def dispatchStep {ε : Type} (hs : Handlers ε) (m : A2AMessage) : DispatchEvent ε :=
  match handlerFor hs (msgType m) with
  | some h => .invoked m (h m)
  | none => .noHandler m

/-- Model of the A2AService.process_messages loop draining a queue: messages
are popped in FIFO order and each produces exactly one dispatch event; a
handler exception is caught inside the loop body (recorded in the event), so
the loop always continues with the next message. -/
def processMessages {ε : Type} (hs : Handlers ε) (queue : List A2AMessage) :
    List (DispatchEvent ε) :=
  queue.map (dispatchStep hs)

/-!
Model of src/a2a_research/servers/auth.py.

A2AAuth holds the shared secret; transport signatures are HMAC-SHA256 (as
mac, see above) over the f-string service_name:timestamp:body.  The FastAPI
dependency verify_request receives the three headers (None when absent, and
Python treats an empty header string as missing too), checks presence, then
timestamp freshness against the receiver clock, then the signature - with an
empty body, as the code deliberately skips body verification.
-/

/-- HTTP error raised by the server layer. -/
structure HTTPException where
  status_code : Nat
  detail : String
  deriving DecidableEq

/-- Decimal string of an integer, as Python str(i). -/
def intStr (i : Int) : String := String.mk (intChars i)

/-- Model of Python int(s) on optionally signed decimal strings; all other
inputs raise ValueError (None).  (Python additionally strips whitespace and
allows underscores between digits; the platform only ever sends plain
str(int(time.time())) strings, which this covers.) -/
def parseInt (s : String) : Option Int :=
  match s.data with
  | [] => none
  | '-' :: ds =>
    if ds ≠ [] ∧ ds.all Char.isDigit then some (-(digitsVal ds : Int)) else none
  | '+' :: ds =>
    if ds ≠ [] ∧ ds.all Char.isDigit then some ((digitsVal ds : Int)) else none
  | ds => if ds.all Char.isDigit then some ((digitsVal ds : Int)) else none

/-- Model of A2AAuth.create_signature: HMAC-SHA256 over
service_name:timestamp:body with the colon delimiter, base64-encoded. -/
def create_signature (mac : String → String → String) (secret : String)
    (service_name timestamp body : String) : String :=
  mac secret (service_name ++ ":" ++ timestamp ++ ":" ++ body)

/-- Model of A2AAuth.verify_signature: recompute and compare with
hmac.compare_digest, which raises TypeError (propagated to the caller, there
is no handler in auth.py) when either string is non-ASCII - an X-Signature
header can be any latin-1-decoded str. -/
def verify_signature (mac : String → String → String) (secret : String)
    (service_name timestamp signature body : String) : Except PyError Bool :=
  compare_digest (create_signature mac secret service_name timestamp body)
    signature

/-- Python truthiness of an Optional[str] header: None and the empty string
are falsy. -/
def headerTruthy : Option String → Bool
  | none => false
  | some s => !(s == "")

/-- How a request leaves the auth dependency when it is not accepted: a
raised HTTPException (FastAPI maps it to its own status code, 401 here), or
a Python exception the dependency does not catch (its try/except covers only
ValueError from int(); FastAPI turns an uncaught exception into HTTP 500). -/
inductive RequestError where
  | http (e : HTTPException)
  | uncaught (e : PyError)
  deriving DecidableEq

/-- Model of create_auth_dependency.verify_request: reject with 401 when a
header is missing, when the timestamp does not parse as an int, when it is
more than 300 seconds from the receiver clock (now, from time.time()), or
when the signature is not valid over the EMPTY body; a TypeError raised by
compare_digest inside verify_signature is not caught and escapes; otherwise
return the sender name. -/
def verify_request (mac : String → String → String) (secret : String)
    (now : Int) (x_service_name x_timestamp x_signature : Option String) :
    Except RequestError String :=
  if !(headerTruthy x_service_name && headerTruthy x_timestamp &&
       headerTruthy x_signature) then
    .error (.http ⟨401, "Missing authentication headers"⟩)
  else
    match parseInt (x_timestamp.getD "") with
    | none => .error (.http ⟨401, "Invalid timestamp"⟩)
    | some request_time =>
      if (now - request_time).natAbs > 300 then
        .error (.http ⟨401, "Request timestamp too old"⟩)
      else
        match verify_signature mac secret (x_service_name.getD "")
            (x_timestamp.getD "") (x_signature.getD "") "" with
        | .error e => .error (.uncaught e)
        | .ok true => .ok (x_service_name.getD "")
        | .ok false => .error (.http ⟨401, "Invalid signature"⟩)

/-!
Model of src/a2a_research/servers/registry.py.

The registry state is the services dict: an association list with unique
keys in insertion order, as a Python dict.  Assignment replaces in place;
registration builds a fresh ServiceInfo with status unknown.
-/

/-- Model of the pydantic ServiceRegistration request body. -/
structure ServiceRegistration where
  service_name : String
  host : String
  port : Nat
  health_endpoint : String
  metadata : JsonObj
  deriving DecidableEq

/-- Model of the pydantic ServiceInfo record. -/
structure ServiceInfo where
  service_name : String
  host : String
  port : Nat
  health_endpoint : String
  url : String
  status : String
  registered_at : String
  last_heartbeat : String
  metadata : JsonObj
  deriving DecidableEq

/-- Python dict assignment d[k] = v: replace in place if the key is present,
otherwise append at the end. -/
def dictSet {α : Type} (k : String) (v : α) :
    List (String × α) → List (String × α)
  | [] => [(k, v)]
  | (k1, v1) :: tl => if k1 = k then (k, v) :: tl else (k1, v1) :: dictSet k v tl

/-- The registry's services dict. -/
def RegistryState : Type := List (String × ServiceInfo)

/-- The ServiceInfo that register_service builds from a registration at
utcnow-time now: derived http URL, status unknown, both stamps set to now. -/
def mkServiceInfo (reg : ServiceRegistration) (now : String) : ServiceInfo :=
  { service_name := reg.service_name, host := reg.host, port := reg.port,
    health_endpoint := reg.health_endpoint,
    url := "http://" ++ reg.host ++ ":" ++ String.mk (natChars reg.port),
    status := "unknown", registered_at := now, last_heartbeat := now,
    metadata := reg.metadata }

/-- Model of the POST /register route: upsert under the service name. -/
def register_service (reg : ServiceRegistration) (now : String)
    (s : RegistryState) : RegistryState :=
  dictSet reg.service_name (mkServiceInfo reg now) s

/-- Model of GET /services: the list of records. -/
def list_services (s : RegistryState) : List ServiceInfo :=
  s.map Prod.snd

/-- Model of GET /discover/service_name: 404 for an unknown name, 503 when
the record's status differs from healthy, else the name/url/status payload. -/
def discover_service (service_name : String) (s : RegistryState) :
    Except HTTPException (String × String × String) :=
  match dictGet service_name s with
  | none => .error ⟨404, "Service not found"⟩
  | some svc =>
    if svc.status ≠ "healthy" then .error ⟨503, "Service unhealthy"⟩
    else .ok (service_name, svc.url, svc.status)

/-!
Model of src/a2a_research/distributed_client.py.

The client's discovered set self.services maps service names to URLs.  Each
workflow step first checks that its required service name was discovered and
raises its service-not-available Exception BEFORE building the request;
only then does it issue the HTTP POST (the network is a parameter, and the
list of issued calls is returned alongside the result).
-/

/-- The six orchestrator workflow steps. -/
inductive WorkflowStep where
  | search
  | extractInsights
  | analyzeCredibility
  | startSession
  | aggregate
  | generateReport
  deriving DecidableEq

/-- The registry name each step requires in the discovered set. -/
def requiredService : WorkflowStep → String
  | .search => "web-search"
  | .extractInsights => "knowledge-extraction"
  | .analyzeCredibility => "knowledge-extraction"
  | .startSession => "research-aggregation"
  | .aggregate => "research-aggregation"
  | .generateReport => "research-aggregation"

/-- The endpoint path each step posts to on the discovered base URL. -/
def stepPath : WorkflowStep → String
  | .search => "/search"
  | .extractInsights => "/extract"
  | .analyzeCredibility => "/credibility"
  | .startSession => "/session"
  | .aggregate => "/aggregate"
  | .generateReport => "/report"

/-- The Exception message each step raises when its service is missing. -/
def unavailableMessage : WorkflowStep → String
  | .search => "Web search service not available"
  | .extractInsights => "Knowledge extraction service not available"
  | .analyzeCredibility => "Knowledge extraction service not available"
  | .startSession => "Research aggregation service not available"
  | .aggregate => "Research aggregation service not available"
  | .generateReport => "Research aggregation service not available"

/-- One orchestrator step (perform_distributed_search, extract_insights,
analyze_credibility, start_research_session, aggregate_results,
generate_report): fail with the unavailable Exception when the required
name is not in the discovered services, else post to the step URL.  The
second component lists the network calls the step issued. -/
def runStep (services : List (String × String)) (step : WorkflowStep)
    (net : String → Except String String) :
    Except String String × List String :=
  match dictGet (requiredService step) services with
  | none => (.error (unavailableMessage step), [])
  | some url => (net (url ++ stepPath step), [url ++ stepPath step])

/-- Key of the first entry of an object, if any. -/
def objHeadKey : JsonObj → Option String
  | .nil => none
  | .cons k _ _ => some k

/-- Is k strictly below the first key of o (python string order)? -/
def keyLtHead (k : String) (o : JsonObj) : Bool :=
  match objHeadKey o with
  | none => true
  | some k1 => decide (k < k1)

/- Canonical-form check: a JsonObj stands for a Python dict exactly when its
entries are in strictly increasing key order (that is how
json.dumps(..., sort_keys=True) lays a dict out), recursively. -/
mutual
def wfVal : JsonVal → Bool
  | .str _ => true
  | .int _ => true
  | .bool _ => true
  | .null => true
  | .arr a => wfArr a
  | .obj o => wfObj o
  termination_by structural v => v
def wfArr : JsonArr → Bool
  | .nil => true
  | .cons v tl => wfVal v && wfArr tl
  termination_by structural a => a
def wfObj : JsonObj → Bool
  | .nil => true
  | .cons k v tl => wfVal v && wfObj tl && keyLtHead k tl
  termination_by structural o => o
end

theorem compare_digest_ascii (a b : String) (ha : isAscii a = true)
    (hb : isAscii b = true) : compare_digest a b = .ok (a == b) := by
  unfold compare_digest
  rw [if_pos (by rw [ha, hb]; rfl)]

theorem verify_message_eq_false_of_sign_ne (mac : String → String → String)
    (secret : String) (m : A2AMessage) (S : String)
    (hsig : m.signature = some S) (hne : sign_message mac secret m ≠ S)
    (haS : isAscii (sign_message mac secret m) = true)
    (hab : isAscii S = true) :
    verify_message mac secret m = .ok false := by
  unfold verify_message
  rw [hsig]
  show (if S = "" then Except.ok false
        else compare_digest (sign_message mac secret m) S) = .ok false
  split
  · rfl
  · rw [compare_digest_ascii _ _ haS hab, beq_eq_false_iff_ne.mpr hne]

theorem verify_message_eq_true (mac : String → String → String)
    (secret : String) (m : A2AMessage) (S : String)
    (hsig : m.signature = some S) (hS : sign_message mac secret m = S)
    (hne : S ≠ "") (hab : isAscii S = true) :
    verify_message mac secret m = .ok true := by
  unfold verify_message
  rw [hsig]
  show (if S = "" then Except.ok false
        else compare_digest (sign_message mac secret m) S) = .ok true
  rw [if_neg hne, hS, compare_digest_ascii _ _ hab hab, beq_self_eq_true S]

theorem verify_message_eq_error (mac : String → String → String)
    (secret : String) (m : A2AMessage) (S : String)
    (hsig : m.signature = some S) (hne : S ≠ "")
    (hnab : (isAscii (sign_message mac secret m) && isAscii S) = false) :
    verify_message mac secret m = .error .typeError := by
  unfold verify_message
  rw [hsig]
  show (if S = "" then Except.ok false
        else compare_digest (sign_message mac secret m) S) = .error .typeError
  rw [if_neg hne]
  unfold compare_digest
  rw [if_neg (by rw [hnab]; exact Bool.false_ne_true)]

theorem dictGet_dictSet_self {α : Type} (k : String) (v : α)
    (s : List (String × α)) : dictGet k (dictSet k v s) = some v := by
  induction s with
  | nil => simp [dictSet, dictGet]
  | cons hd tl ih =>
    obtain ⟨k1, v1⟩ := hd
    by_cases h : k1 = k
    · simp [dictSet, h, dictGet]
    · simp [dictSet, h, dictGet, ih]

theorem length_dictSet_dictSet {α : Type} (k : String) (v v' : α)
    (s : List (String × α)) :
    (dictSet k v (dictSet k v' s)).length = (dictSet k v' s).length := by
  induction s with
  | nil => simp [dictSet]
  | cons hd tl ih =>
    obtain ⟨k1, v1⟩ := hd
    by_cases h : k1 = k
    · simp [dictSet, h]
    · simp [dictSet, h, ih]

theorem mem_keys_dictSet_iff {α : Type} (a k : String) (v : α)
    (s : List (String × α)) :
    a ∈ (dictSet k v s).map Prod.fst ↔ a = k ∨ a ∈ s.map Prod.fst := by
  induction s with
  | nil => simp [dictSet]
  | cons hd tl ih =>
    obtain ⟨k1, v1⟩ := hd
    by_cases h : k1 = k
    · subst h
      simp [dictSet]
    · simp [dictSet, h, ih]
      tauto

theorem dictSet_cons_eq {α : Type} (k : String) (v v1 : α)
    (tl : List (String × α)) : dictSet k v ((k, v1) :: tl) = (k, v) :: tl := by
  simp [dictSet]

theorem nodup_keys_dictSet {α : Type} (k : String) (v : α)
    (s : List (String × α)) (hnd : (s.map Prod.fst).Nodup) :
    ((dictSet k v s).map Prod.fst).Nodup := by
  induction s with
  | nil => simp [dictSet]
  | cons hd tl ih =>
    obtain ⟨k1, v1⟩ := hd
    simp only [List.map_cons, List.nodup_cons] at hnd
    by_cases h : k1 = k
    · subst h
      rw [dictSet_cons_eq]
      simp only [List.map_cons, List.nodup_cons]
      exact hnd
    · simp only [dictSet, if_neg h, List.map_cons, List.nodup_cons]
      refine ⟨?_, ih hnd.2⟩
      rw [mem_keys_dictSet_iff]
      rintro (rfl | hm)
      · exact h rfl
      · exact hnd.1 hm

theorem mem_keys_dictSet {α : Type} (k : String) (v : α)
    (s : List (String × α)) : k ∈ (dictSet k v s).map Prod.fst := by
  rw [mem_keys_dictSet_iff]
  exact Or.inl rfl

theorem sign_message_ignores_signature (mac : String → String → String)
    (secret : String) (a : A2AMessage) (x : Option String) :
    sign_message mac secret { a with signature := x } =
      sign_message mac secret a := rfl

theorem sign_ne_of_messageData_ne (mac : String → String → String)
    (secret : String) (hinj : Function.Injective (mac secret))
    {m1 m2 : A2AMessage} (h : messageData m1 ≠ messageData m2) :
    sign_message mac secret m1 ≠ sign_message mac secret m2 :=
  fun he => h (jsonDumps_inj (hinj he))

theorem string_append_left_cancel {a b c : String} (h : a ++ b = a ++ c) :
    b = c := by
  have h2 := congrArg String.data h
  simp only [String.data_append] at h2
  exact String.ext (List.append_cancel_left h2)

theorem string_cons_append_ne_empty (x : String) : "m" ++ x ≠ "" := by
  intro h
  have h2 := congrArg String.length h
  simp [String.length_append] at h2
  exact absurd h2.1 (by decide)

theorem hexDigitChar_lt_128 : ∀ k, k < 16 → (hexDigitChar k).toNat < 128 := by
  decide

theorem hex4_ascii (n : Nat) : ∀ d ∈ hex4 n, d.toNat < 128 := by
  intro d hd
  simp only [hex4, List.mem_cons, List.not_mem_nil, or_false] at hd
  rcases hd with rfl | rfl | rfl | rfl <;> exact hexDigitChar_lt_128 _ (by omega)

theorem escChar_ascii (c : Char) : ∀ d ∈ escChar c, d.toNat < 128 := by
  intro d hd
  rw [escChar] at hd
  repeat' split at hd
  · simp at hd; rcases hd with rfl | rfl <;> decide
  · simp at hd; rcases hd with rfl | rfl <;> decide
  · simp at hd; rcases hd with rfl | rfl <;> decide
  · simp at hd; rcases hd with rfl | rfl <;> decide
  · simp at hd; rcases hd with rfl | rfl <;> decide
  · simp at hd; rcases hd with rfl | rfl <;> decide
  · simp at hd; rcases hd with rfl | rfl <;> decide
  · simp only [List.mem_cons] at hd
    rcases hd with rfl | rfl | hm
    · decide
    · decide
    · exact hex4_ascii _ d hm
  · simp at hd; subst hd; omega
  · simp only [List.mem_cons] at hd
    rcases hd with rfl | rfl | hm
    · decide
    · decide
    · exact hex4_ascii _ d hm
  · rcases List.mem_append.mp hd with hm | hm
    · simp only [List.mem_cons] at hm
      rcases hm with rfl | rfl | hm2
      · decide
      · decide
      · exact hex4_ascii _ d hm2
    · simp only [List.mem_cons] at hm
      rcases hm with rfl | rfl | hm2
      · decide
      · decide
      · exact hex4_ascii _ d hm2

theorem escBody_ascii (cs : List Char) : ∀ d ∈ escBody cs, d.toNat < 128 := by
  induction cs with
  | nil => intro d hd; simp [escBody] at hd
  | cons c cs ih =>
    intro d hd
    simp only [escBody, List.mem_append] at hd
    rcases hd with hm | hm
    · exact escChar_ascii c d hm
    · exact ih d hm

theorem escBody_inj {cs1 cs2 : List Char} (h : escBody cs1 = escBody cs2) :
    cs1 = cs2 := by
  have l1 := decStr_round ((escBody cs1).length + 1) cs1 [] (by simp)
  have l2 := decStr_round ((escBody cs1).length + 1) cs2 [] (by rw [← h]; simp)
  rw [← h] at l2
  have h2 := l1.symm.trans l2
  simp only [Option.some.injEq, Prod.mk.injEq, and_true] at h2
  exact h2

/-- A concrete stand-in for base64-of-HMAC with every property the claims
need: injective for a fixed secret, never empty, and all-ASCII output. -/
theorem escMac_injective :
    Function.Injective (fun x : String => "m" ++ String.mk (escBody x.data)) := by
  intro a b h
  have h2 := string_append_left_cancel h
  have h3 : escBody a.data = escBody b.data := congrArg String.data h2
  exact String.ext (escBody_inj h3)

theorem isAscii_escMac (x : String) :
    isAscii ("m" ++ String.mk (escBody x.data)) = true := by
  unfold isAscii
  have hdata : ("m" ++ String.mk (escBody x.data)).data = 'm' :: escBody x.data := by
    rw [String.data_append]
    rfl
  rw [hdata, List.all_cons, Bool.and_eq_true]
  refine ⟨by decide, ?_⟩
  rw [List.all_eq_true]
  intro c hc
  simpa using escBody_ascii x.data c hc

/-- Claim C1: a message built by A2AService.create_message (signed over the
fields id, sender, recipient, payload and timestamp with the shared secret)
verifies under the same secret; and changing any single one of those five
fields makes verification return false.  The MAC (base64 of HMAC-SHA256) is
abstract; its collision-freeness under the fixed secret is the injectivity
hypothesis, its outputs are nonempty and ASCII-only, as base64 text always
is (the ASCII hypothesis is what lets hmac.compare_digest return a Bool
instead of raising TypeError).  Payload dicts are in canonical sorted-key
form (wfObj). -/
theorem claim_c1 (mac : String → String → String) (secret : String)
    (hinj : Function.Injective (mac secret))
    (hne : ∀ x, mac secret x ≠ "")
    (hascii : ∀ x, isAscii (mac secret x) = true)
    (service_name msgId recipient : String) (payload : JsonObj)
    (timestamp : String) (hwf : wfObj payload = true) (m : A2AMessage)
    (hm : m = create_message mac secret service_name msgId recipient payload
      timestamp) :
    verify_message mac secret m = .ok true ∧
    (∀ v, v ≠ msgId →
      verify_message mac secret { m with id := v } = .ok false) ∧
    (∀ v, v ≠ service_name →
      verify_message mac secret { m with sender := v } = .ok false) ∧
    (∀ v, v ≠ recipient →
      verify_message mac secret { m with recipient := v } = .ok false) ∧
    (∀ p, wfObj p = true → p ≠ payload →
      verify_message mac secret { m with payload := p } = .ok false) ∧
    (∀ v, v ≠ timestamp →
      verify_message mac secret { m with timestamp := v } = .ok false) := by
  subst hm
  refine ⟨?_, fun v hv => ?_, fun v hv => ?_, fun v hv => ?_,
    fun p hpwf hpv => ?_, fun v hv => ?_⟩
  · exact verify_message_eq_true mac secret _
      (sign_message mac secret
        ⟨msgId, service_name, recipient, payload, timestamp, none⟩)
      rfl rfl (hne _) (hascii _)
  · refine verify_message_eq_false_of_sign_ne mac secret _
      (sign_message mac secret
        ⟨msgId, service_name, recipient, payload, timestamp, none⟩) rfl ?_
      (hascii _) (hascii _)
    show sign_message mac secret
        ⟨v, service_name, recipient, payload, timestamp, _⟩ ≠ _
    apply sign_ne_of_messageData_ne mac secret hinj
    intro h
    simp [messageData] at h
    exact hv h
  · refine verify_message_eq_false_of_sign_ne mac secret _
      (sign_message mac secret
        ⟨msgId, service_name, recipient, payload, timestamp, none⟩) rfl ?_
      (hascii _) (hascii _)
    show sign_message mac secret
        ⟨msgId, v, recipient, payload, timestamp, _⟩ ≠ _
    apply sign_ne_of_messageData_ne mac secret hinj
    intro h
    simp [messageData] at h
    exact hv h
  · refine verify_message_eq_false_of_sign_ne mac secret _
      (sign_message mac secret
        ⟨msgId, service_name, recipient, payload, timestamp, none⟩) rfl ?_
      (hascii _) (hascii _)
    show sign_message mac secret
        ⟨msgId, service_name, v, payload, timestamp, _⟩ ≠ _
    apply sign_ne_of_messageData_ne mac secret hinj
    intro h
    simp [messageData] at h
    exact hv h
  · refine verify_message_eq_false_of_sign_ne mac secret _
      (sign_message mac secret
        ⟨msgId, service_name, recipient, payload, timestamp, none⟩) rfl ?_
      (hascii _) (hascii _)
    show sign_message mac secret
        ⟨msgId, service_name, recipient, p, timestamp, _⟩ ≠ _
    apply sign_ne_of_messageData_ne mac secret hinj
    intro h
    simp [messageData] at h
    exact hpv h
  · refine verify_message_eq_false_of_sign_ne mac secret _
      (sign_message mac secret
        ⟨msgId, service_name, recipient, payload, timestamp, none⟩) rfl ?_
      (hascii _) (hascii _)
    show sign_message mac secret
        ⟨msgId, service_name, recipient, payload, v, _⟩ ≠ _
    apply sign_ne_of_messageData_ne mac secret hinj
    intro h
    simp [messageData] at h
    exact hv h

/-- Witness for C1 at a concrete secret, MAC (injective, nonempty, ASCII),
and message; each hypothesis is discharged at the instance. -/
theorem claim_c1_witness :
    verify_message (fun _ x => "m" ++ String.mk (escBody x.data)) "k"
      (create_message (fun _ x => "m" ++ String.mk (escBody x.data)) "k"
        "svc" "id1" "dst" (.cons "type" (.str "query") .nil) "2025") =
      .ok true ∧
    verify_message (fun _ x => "m" ++ String.mk (escBody x.data)) "k"
      { create_message (fun _ x => "m" ++ String.mk (escBody x.data)) "k"
          "svc" "id1" "dst" (.cons "type" (.str "query") .nil) "2025" with
        id := "id2" } = .ok false ∧
    verify_message (fun _ x => "m" ++ String.mk (escBody x.data)) "k"
      { create_message (fun _ x => "m" ++ String.mk (escBody x.data)) "k"
          "svc" "id1" "dst" (.cons "type" (.str "query") .nil) "2025" with
        sender := "evil" } = .ok false ∧
    verify_message (fun _ x => "m" ++ String.mk (escBody x.data)) "k"
      { create_message (fun _ x => "m" ++ String.mk (escBody x.data)) "k"
          "svc" "id1" "dst" (.cons "type" (.str "query") .nil) "2025" with
        recipient := "other" } = .ok false ∧
    verify_message (fun _ x => "m" ++ String.mk (escBody x.data)) "k"
      { create_message (fun _ x => "m" ++ String.mk (escBody x.data)) "k"
          "svc" "id1" "dst" (.cons "type" (.str "query") .nil) "2025" with
        payload := .nil } = .ok false ∧
    verify_message (fun _ x => "m" ++ String.mk (escBody x.data)) "k"
      { create_message (fun _ x => "m" ++ String.mk (escBody x.data)) "k"
          "svc" "id1" "dst" (.cons "type" (.str "query") .nil) "2025" with
        timestamp := "2026" } = .ok false := by
  have h := claim_c1 (fun _ x => "m" ++ String.mk (escBody x.data)) "k"
    (fun a b hab => escMac_injective hab)
    (fun x => string_cons_append_ne_empty (String.mk (escBody x.data)))
    (fun x => isAscii_escMac x)
    "svc" "id1" "dst" (.cons "type" (.str "query") .nil) "2025" (by decide) _ rfl
  exact ⟨h.1, h.2.1 "id2" (by decide), h.2.2.1 "evil" (by decide),
    h.2.2.2.1 "other" (by decide), h.2.2.2.2.1 .nil (by decide) (by decide),
    h.2.2.2.2.2 "2026" (by decide)⟩

/-- Claim C2 counterexample: the receiver accepts a request whose signature
was computed over the EMPTY body rather than over its actual body (the
dependency passes body="" to verify_signature), so such a request is NOT
rejected with 401 as the claim states.  Here the empty-body signature
differs from the actual-body signature, yet verify_request accepts. -/
theorem claim_c2_counterexample :
    create_signature (fun se x => se ++ "|" ++ x) "k" "svc" "1000" "" ≠
      create_signature (fun se x => se ++ "|" ++ x) "k" "svc" "1000" "B" ∧
    verify_request (fun se x => se ++ "|" ++ x) "k" 1000 (some "svc")
      (some "1000")
      (some (create_signature (fun se x => se ++ "|" ++ x) "k" "svc" "1000" ""))
      = .ok "svc" := by
  constructor
  · decide
  · rfl

theorem verify_request_with_headers (mac : String → String → String)
    (secret : String) (now : Int) (name ts sig : String) (t : Int)
    (hname : name ≠ "") (hts : ts ≠ "") (hsig : sig ≠ "")
    (hparse : parseInt ts = some t) :
    verify_request mac secret now (some name) (some ts) (some sig) =
      (if (now - t).natAbs > 300 then
        .error (.http ⟨401, "Request timestamp too old"⟩)
       else
        match verify_signature mac secret name ts sig "" with
        | .error e => .error (.uncaught e)
        | .ok true => .ok name
        | .ok false => .error (.http ⟨401, "Invalid signature"⟩)) := by
  unfold verify_request
  simp only [headerTruthy, Option.getD]
  rw [if_neg (by simp [hname, hts, hsig]), hparse]

/-- Claim C2 (amended): transport signatures are HMAC-SHA256 over
senderName:timestamp:body with the colon delimiter; but the receiver
verifies the incoming signature over the EMPTY body (body verification is
deliberately skipped).  With present headers and a fresh timestamp: when
both the expected empty-body signature and the presented one are ASCII, the
request is accepted exactly when they are equal - independent of its actual
body - and rejected with 401 Invalid signature otherwise; when either
string is non-ASCII, hmac.compare_digest raises TypeError, which
verify_request does not catch (only ValueError from int() is), so the
exception escapes the dependency (HTTP 500, not 401). -/
theorem claim_c2_amended (mac : String → String → String) (secret : String)
    (now : Int) (name ts sig body : String) (t : Int)
    (hname : name ≠ "") (hsig : sig ≠ "")
    (hparse : parseInt ts = some t)
    (hfresh : (now - t).natAbs ≤ 300) :
    create_signature mac secret name ts body =
      mac secret (name ++ ":" ++ ts ++ ":" ++ body) ∧
    verify_request mac secret now (some name) (some ts) (some sig) =
      (if isAscii (create_signature mac secret name ts "") && isAscii sig then
        (if sig = create_signature mac secret name ts "" then .ok name
         else .error (.http ⟨401, "Invalid signature"⟩))
       else .error (.uncaught .typeError)) := by
  refine ⟨rfl, ?_⟩
  have hts : ts ≠ "" := by
    intro h
    rw [h] at hparse
    simp [parseInt] at hparse
  rw [verify_request_with_headers mac secret now name ts sig t hname hts hsig hparse]
  rw [if_neg (by omega)]
  by_cases hA : (isAscii (create_signature mac secret name ts "") &&
      isAscii sig) = true
  · have hs1 := hA
    rw [Bool.and_eq_true] at hs1
    have hv : verify_signature mac secret name ts sig "" =
        .ok (create_signature mac secret name ts "" == sig) := by
      unfold verify_signature
      exact compare_digest_ascii _ _ hs1.1 hs1.2
    rw [hv, if_pos hA]
    by_cases hc : sig = create_signature mac secret name ts ""
    · rw [if_pos hc]
      rw [show (create_signature mac secret name ts "" == sig) = true from
        beq_iff_eq.mpr hc.symm]
    · rw [if_neg hc]
      rw [show (create_signature mac secret name ts "" == sig) = false from
        beq_eq_false_iff_ne.mpr (Ne.symm hc)]
  · have hv : verify_signature mac secret name ts sig "" = .error .typeError := by
      unfold verify_signature compare_digest
      rw [if_neg (by rw [Bool.not_eq_true] at hA; rw [hA]; exact Bool.false_ne_true)]
    rw [hv, if_neg (by rw [Bool.not_eq_true] at hA; rw [hA]; exact Bool.false_ne_true)]

/-- Witness for the amended C2 at a concrete accepting request. -/
theorem claim_c2_amended_witness :
    verify_request (fun se x => se ++ "#" ++ x) "k" 1100 (some "svc")
      (some "1000")
      (some (create_signature (fun se x => se ++ "#" ++ x) "k" "svc" "1000" ""))
      = .ok "svc" := by
  have h := claim_c2_amended (fun se x => se ++ "#" ++ x) "k" 1100 "svc" "1000"
    (create_signature (fun se x => se ++ "#" ++ x) "k" "svc" "1000" "") "BODY"
    1000 (by decide) (by decide) rfl (by decide)
  rw [h.2, if_pos (by decide), if_pos rfl]

/-- Claim C3: with all three headers present, a request whose timestamp
differs from the receiver clock by more than 300 seconds is rejected with
the 401 stale-timestamp error, whatever its signature is (the signature is
never examined on this path). -/
theorem claim_c3 (mac : String → String → String) (secret : String)
    (now t : Int) (name ts sig : String)
    (hname : name ≠ "") (hsig : sig ≠ "")
    (hparse : parseInt ts = some t)
    (hstale : (now - t).natAbs > 300) :
    verify_request mac secret now (some name) (some ts) (some sig) =
      .error (.http ⟨401, "Request timestamp too old"⟩) := by
  have hts : ts ≠ "" := by
    intro h
    rw [h] at hparse
    simp [parseInt] at hparse
  rw [verify_request_with_headers mac secret now name ts sig t hname hts hsig hparse]
  rw [if_pos hstale]

/-- Witness for C3: the request carries a signature that is VALID for the
empty-body scheme, yet the stale timestamp alone causes rejection. -/
theorem claim_c3_witness :
    verify_request (fun se x => se ++ "|" ++ x) "k" 1000 (some "svc")
      (some "400")
      (some (create_signature (fun se x => se ++ "|" ++ x) "k" "svc" "400" ""))
      = .error (.http ⟨401, "Request timestamp too old"⟩) :=
  claim_c3 (fun se x => se ++ "|" ++ x) "k" 1000 400 "svc" "400"
    (create_signature (fun se x => se ++ "|" ++ x) "k" "svc" "400" "")
    (by decide) (by decide) rfl (by decide)

/-- Claim C4 counterexample: an envelope bearing a non-ASCII signature makes
hmac.compare_digest raise TypeError inside verify_message, and
receive_message has no try/except, so the exception escapes to the caller -
refuting the claim that a failed verification never lets an exception
escape. -/
theorem claim_c4_counterexample :
    verify_message (fun _ x => "m" ++ x) "k"
      ⟨"1", "a", "b", JsonObj.nil, "t", some "é"⟩ = .error .typeError ∧
    receive_message (fun _ x => "m" ++ x) "k" []
      ⟨"1", "a", "b", JsonObj.nil, "t", some "é"⟩ = .error .typeError := by
  constructor
  · rfl
  · rfl

/-- Claim C4 (amended): when verification returns False (missing or empty
signature, or an ASCII signature that does not match) the envelope is not
enqueued and the queue is unchanged; when it returns True the envelope is
enqueued at the back; but when the attached (or recomputed) signature is a
non-ASCII string, hmac.compare_digest raises TypeError and the exception
escapes receive_message to the caller (there is no try/except). -/
theorem claim_c4_amended (mac : String → String → String) (secret : String)
    (queue : List A2AMessage) (m : A2AMessage) :
    (verify_message mac secret m = .ok false →
      receive_message mac secret queue m = .ok queue) ∧
    (verify_message mac secret m = .ok true →
      receive_message mac secret queue m = .ok (queue ++ [m])) ∧
    (∀ e, verify_message mac secret m = .error e →
      receive_message mac secret queue m = .error e) := by
  refine ⟨fun h => ?_, fun h => ?_, fun e h => ?_⟩ <;> simp [receive_message, h]

/-- Witness for the amended C4: a dropped envelope, an enqueued one, and one
whose non-ASCII signature lets the TypeError escape. -/
theorem claim_c4_witness :
    receive_message (fun _ x => "m" ++ x) "k" []
      ⟨"1", "a", "b", JsonObj.nil, "t", none⟩ = .ok [] ∧
    receive_message (fun _ x => "m" ++ x) "k" []
      (create_message (fun _ x => "m" ++ x) "k" "svc" "id1" "dst" .nil "t1") =
      .ok [create_message (fun _ x => "m" ++ x) "k" "svc" "id1" "dst" .nil "t1"] ∧
    receive_message (fun _ x => "m" ++ x) "k" []
      ⟨"2", "a", "b", JsonObj.nil, "t", some "é"⟩ = .error .typeError :=
  ⟨(claim_c4_amended (fun _ x => "m" ++ x) "k" []
      ⟨"1", "a", "b", JsonObj.nil, "t", none⟩).1 rfl,
   (claim_c4_amended (fun _ x => "m" ++ x) "k" []
      (create_message (fun _ x => "m" ++ x) "k" "svc" "id1" "dst" .nil "t1")).2.1
      (by decide),
   (claim_c4_amended (fun _ x => "m" ++ x) "k" []
      ⟨"2", "a", "b", JsonObj.nil, "t", some "é"⟩).2.2 .typeError rfl⟩

/-- Claim C5: when two envelopes A then B are both received successfully
(verification returns True for both), they are enqueued in that order and
the dispatch loop produces A's handler invocation before B's: draining the
queue appends exactly those two invocation events, in order, after the
events of the messages already queued. -/
theorem claim_c5 {ε : Type} (mac : String → String → String) (secret : String)
    (hs : Handlers ε) (q : List A2AMessage) (A B : A2AMessage)
    (fA fB : A2AMessage → Except ε Unit)
    (hA : verify_message mac secret A = .ok true)
    (hB : verify_message mac secret B = .ok true)
    (hfA : handlerFor hs (msgType A) = some fA)
    (hfB : handlerFor hs (msgType B) = some fB) :
    receive_message mac secret q A = .ok (q ++ [A]) ∧
    receive_message mac secret (q ++ [A]) B = .ok (q ++ [A] ++ [B]) ∧
    processMessages hs (q ++ [A] ++ [B]) =
      processMessages hs q ++ [.invoked A (fA A), .invoked B (fB B)] := by
  refine ⟨?_, ?_, ?_⟩
  · simp [receive_message, hA]
  · simp [receive_message, hB]
  · simp [processMessages, dispatchStep, hfA, hfB]

/-- Witness for C5 with two concretely signed messages and one handler. -/
theorem claim_c5_witness :
    receive_message (fun _ x => "m" ++ x) "k" []
      (create_message (fun _ x => "m" ++ x) "k" "svc" "idA" "dst"
        (.cons "type" (.str "task") .nil) "t1") =
      .ok [create_message (fun _ x => "m" ++ x) "k" "svc" "idA" "dst"
        (.cons "type" (.str "task") .nil) "t1"] ∧
    receive_message (fun _ x => "m" ++ x) "k"
      [create_message (fun _ x => "m" ++ x) "k" "svc" "idA" "dst"
        (.cons "type" (.str "task") .nil) "t1"]
      (create_message (fun _ x => "m" ++ x) "k" "svc" "idB" "dst"
        (.cons "type" (.str "task") .nil) "t2") =
      .ok [create_message (fun _ x => "m" ++ x) "k" "svc" "idA" "dst"
            (.cons "type" (.str "task") .nil) "t1",
           create_message (fun _ x => "m" ++ x) "k" "svc" "idB" "dst"
            (.cons "type" (.str "task") .nil) "t2"] ∧
    processMessages (([("task", fun _ => Except.ok ())]) : Handlers Unit)
      [create_message (fun _ x => "m" ++ x) "k" "svc" "idA" "dst"
        (.cons "type" (.str "task") .nil) "t1",
       create_message (fun _ x => "m" ++ x) "k" "svc" "idB" "dst"
        (.cons "type" (.str "task") .nil) "t2"] =
      [.invoked (create_message (fun _ x => "m" ++ x) "k" "svc" "idA" "dst"
          (.cons "type" (.str "task") .nil) "t1") (Except.ok ()),
       .invoked (create_message (fun _ x => "m" ++ x) "k" "svc" "idB" "dst"
          (.cons "type" (.str "task") .nil) "t2") (Except.ok ())] := by
  have h := claim_c5 (ε := Unit) (fun _ x => "m" ++ x) "k"
    [("task", fun _ => Except.ok ())] []
    (create_message (fun _ x => "m" ++ x) "k" "svc" "idA" "dst"
      (.cons "type" (.str "task") .nil) "t1")
    (create_message (fun _ x => "m" ++ x) "k" "svc" "idB" "dst"
      (.cons "type" (.str "task") .nil) "t2")
    (fun _ => Except.ok ()) (fun _ => Except.ok ())
    (by decide) (by decide) rfl rfl
  refine ⟨by simpa using h.1, by simpa using h.2.1, by simpa using h.2.2⟩

/-- Claim C6: a handler that raises is caught by the dispatch loop: its
queued message yields an invoked-with-error event, the loop is not
terminated, every later queued message is still dispatched, and every
queued message yields exactly one event. -/
theorem claim_c6 {ε : Type} (hs : Handlers ε) (q1 q2 : List A2AMessage)
    (m : A2AMessage) (f : A2AMessage → Except ε Unit) (e : ε)
    (hf : handlerFor hs (msgType m) = some f) (he : f m = .error e) :
    processMessages hs (q1 ++ m :: q2) =
      processMessages hs q1 ++ .invoked m (.error e) :: processMessages hs q2 ∧
    (processMessages hs (q1 ++ m :: q2)).length = q1.length + 1 + q2.length := by
  constructor
  · simp [processMessages, dispatchStep, hf, he]
  · simp [processMessages]
    omega

/-- Witness for C6: the throwing handler's message is followed by another
message that is still dispatched. -/
theorem claim_c6_witness :
    processMessages [("task", fun _ => Except.error "boom")]
      ([] ++ ⟨"1", "a", "b", JsonObj.cons "type" (.str "task") .nil, "t", none⟩ ::
        [⟨"2", "a", "b", JsonObj.cons "type" (.str "task") .nil, "u", none⟩]) =
      [.invoked ⟨"1", "a", "b", JsonObj.cons "type" (.str "task") .nil, "t", none⟩
        (.error "boom"),
       .invoked ⟨"2", "a", "b", JsonObj.cons "type" (.str "task") .nil, "u", none⟩
        (.error "boom")] := by
  have h := claim_c6 (ε := String) [("task", fun _ => Except.error "boom")] []
    [⟨"2", "a", "b", JsonObj.cons "type" (.str "task") .nil, "u", none⟩]
    ⟨"1", "a", "b", JsonObj.cons "type" (.str "task") .nil, "t", none⟩
    (fun _ => Except.error "boom") "boom" rfl rfl
  simpa using h.1

/-- Claim C7: the registry's discover endpoint returns a URL exactly for a
registered record whose status is healthy; a registered record with status
unknown or unhealthy yields the 503 ServiceUnavailable error, and an
unregistered name yields the 404 NotFound error. -/
theorem claim_c7 (service_name : String) (s : RegistryState) :
    ((∃ r, discover_service service_name s = .ok r) ↔
      (∃ svc, dictGet service_name s = some svc ∧ svc.status = "healthy")) ∧
    (∀ svc, dictGet service_name s = some svc → svc.status = "healthy" →
      discover_service service_name s =
        .ok (service_name, svc.url, svc.status)) ∧
    (∀ svc, dictGet service_name s = some svc →
      (svc.status = "unknown" ∨ svc.status = "unhealthy") →
      discover_service service_name s = .error ⟨503, "Service unhealthy"⟩) ∧
    (dictGet service_name s = none →
      discover_service service_name s = .error ⟨404, "Service not found"⟩) := by
  refine ⟨⟨?_, ?_⟩, fun svc hget hst => ?_, fun svc hget hst => ?_, fun hget => ?_⟩
  · rintro ⟨r, hr⟩
    cases h : dictGet service_name s with
    | none =>
      simp only [discover_service, h] at hr
      exact absurd hr (by simp)
    | some svc =>
      simp only [discover_service, h] at hr
      by_cases hst : svc.status ≠ "healthy"
      · rw [if_pos hst] at hr
        exact absurd hr (by simp)
      · exact ⟨svc, rfl, not_not.mp hst⟩
  · rintro ⟨svc, hget, hst⟩
    refine ⟨(service_name, svc.url, svc.status), ?_⟩
    simp only [discover_service, hget]
    rw [if_neg (by simp [hst])]
  · simp only [discover_service, hget]
    rw [if_neg (by simp [hst])]
  · simp only [discover_service, hget]
    rw [if_pos (by rcases hst with h | h <;> simp [h])]
  · simp only [discover_service, hget]

/-- Witness for C7 on a concrete two-record registry. -/
theorem claim_c7_witness :
    discover_service "a"
      [("a", ⟨"a", "h1", 1, "/health", "http://h1:1", "healthy", "r", "b", .nil⟩),
       ("b", ⟨"b", "h2", 2, "/health", "http://h2:2", "unknown", "r", "b", .nil⟩)] =
      .ok ("a", "http://h1:1", "healthy") ∧
    discover_service "b"
      [("a", ⟨"a", "h1", 1, "/health", "http://h1:1", "healthy", "r", "b", .nil⟩),
       ("b", ⟨"b", "h2", 2, "/health", "http://h2:2", "unknown", "r", "b", .nil⟩)] =
      .error ⟨503, "Service unhealthy"⟩ ∧
    discover_service "zz"
      [("a", ⟨"a", "h1", 1, "/health", "http://h1:1", "healthy", "r", "b", .nil⟩),
       ("b", ⟨"b", "h2", 2, "/health", "http://h2:2", "unknown", "r", "b", .nil⟩)] =
      .error ⟨404, "Service not found"⟩ :=
  ⟨(claim_c7 "a"
      [("a", ⟨"a", "h1", 1, "/health", "http://h1:1", "healthy", "r", "b", .nil⟩),
       ("b", ⟨"b", "h2", 2, "/health", "http://h2:2", "unknown", "r", "b", .nil⟩)]).2.1
      ⟨"a", "h1", 1, "/health", "http://h1:1", "healthy", "r", "b", .nil⟩ rfl rfl,
   (claim_c7 "b"
      [("a", ⟨"a", "h1", 1, "/health", "http://h1:1", "healthy", "r", "b", .nil⟩),
       ("b", ⟨"b", "h2", 2, "/health", "http://h2:2", "unknown", "r", "b", .nil⟩)]).2.2.1
      ⟨"b", "h2", 2, "/health", "http://h2:2", "unknown", "r", "b", .nil⟩ rfl (Or.inl rfl),
   (claim_c7 "zz"
      [("a", ⟨"a", "h1", 1, "/health", "http://h1:1", "healthy", "r", "b", .nil⟩),
       ("b", ⟨"b", "h2", 2, "/health", "http://h2:2", "unknown", "r", "b", .nil⟩)]).2.2.2 rfl⟩

/-- Claim C8: registering a name again upserts into the services dict: after
re-registration the name maps to exactly the fresh record, whose status is
unknown; the number of records reported by list_services does not grow on
repeated registration of one name; and with names unique going in, the name
keys stay unique, so exactly one record is stored under the name. -/
theorem claim_c8 (reg regB : ServiceRegistration) (t1 t2 : String)
    (s : RegistryState) (hsame : regB.service_name = reg.service_name)
    (hnd : (s.map Prod.fst).Nodup) :
    (list_services (register_service regB t2
        (register_service reg t1 s))).length =
      (list_services (register_service reg t1 s)).length ∧
    dictGet reg.service_name
        (register_service regB t2 (register_service reg t1 s)) =
      some (mkServiceInfo regB t2) ∧
    (mkServiceInfo regB t2).status = "unknown" ∧
    ((register_service reg t1 s).map Prod.fst).count reg.service_name = 1 ∧
    ((register_service reg t1 s).map Prod.fst).Nodup := by
  have hnd2 : ((register_service reg t1 s).map Prod.fst).Nodup :=
    nodup_keys_dictSet _ _ _ hnd
  refine ⟨?_, ?_, rfl, ?_, hnd2⟩
  · unfold list_services register_service
    rw [hsame]
    simp only [List.length_map]
    exact length_dictSet_dictSet _ _ _ s
  · unfold register_service
    rw [hsame]
    exact dictGet_dictSet_self _ _ _
  · exact List.count_eq_one_of_mem hnd2 (mem_keys_dictSet _ _ _)

/-- Witness for C8: the same name registered twice with different hosts. -/
theorem claim_c8_witness :
    (list_services (register_service ⟨"svc", "h2", 2, "/health", .nil⟩ "t2"
        (register_service ⟨"svc", "h1", 1, "/health", .nil⟩ "t1" []))).length =
      (list_services
        (register_service ⟨"svc", "h1", 1, "/health", .nil⟩ "t1" [])).length ∧
    dictGet "svc"
        (register_service ⟨"svc", "h2", 2, "/health", .nil⟩ "t2"
          (register_service ⟨"svc", "h1", 1, "/health", .nil⟩ "t1" [])) =
      some (mkServiceInfo ⟨"svc", "h2", 2, "/health", .nil⟩ "t2") ∧
    (mkServiceInfo ⟨"svc", "h2", 2, "/health", .nil⟩ "t2").status = "unknown" ∧
    ((register_service ⟨"svc", "h1", 1, "/health", .nil⟩ "t1" []).map
        Prod.fst).count "svc" = 1 ∧
    ((register_service ⟨"svc", "h1", 1, "/health", .nil⟩ "t1" []).map
        Prod.fst).Nodup :=
  claim_c8 ⟨"svc", "h1", 1, "/health", .nil⟩ ⟨"svc", "h2", 2, "/health", .nil⟩
    "t1" "t2" [] rfl (by simp)

/-- Claim C9: a workflow step whose required service name is absent from the
client's discovered set fails with that step's service-not-available error
and issues no network call at all. -/
theorem claim_c9 (services : List (String × String)) (step : WorkflowStep)
    (net : String → Except String String)
    (habsent : dictGet (requiredService step) services = none) :
    runStep services step net = (.error (unavailableMessage step), []) := by
  simp [runStep, habsent]

/-- Witness for C9: the search step against an empty discovered set. -/
theorem claim_c9_witness :
    runStep [] .search (fun _ => .ok "") =
      (.error "Web search service not available", []) :=
  claim_c9 [] .search (fun _ => .ok "") rfl

/-- Claim C10 (implicit): a verified envelope whose payload has no type key
is dispatched under the literal message type string unknown: a handler
registered under the string unknown receives the envelope, and otherwise the
loop reports the no-handler diagnostic; either way the rest of the queue is
still processed. -/
theorem claim_c10 {ε : Type} (hs : Handlers ε) (m : A2AMessage)
    (q : List A2AMessage)
    (hnotype : msgType.objGet m.payload "type" = none) :
    msgType m = .str "unknown" ∧
    (∀ f, dictGet "unknown" hs = some f →
      processMessages hs (m :: q) =
        .invoked m (f m) :: processMessages hs q) ∧
    (dictGet "unknown" hs = none →
      processMessages hs (m :: q) =
        .noHandler m :: processMessages hs q) := by
  have ht : msgType m = .str "unknown" := by
    unfold msgType
    rw [hnotype]
    rfl
  refine ⟨ht, fun f hf => ?_, fun hf => ?_⟩
  · simp [processMessages, dispatchStep, handlerFor, ht, hf]
  · simp [processMessages, dispatchStep, handlerFor, ht, hf]

/-- Witness for C10: one queue under a table with an unknown-handler and one
under a table without it. -/
theorem claim_c10_witness :
    processMessages (([("unknown", fun _ => Except.ok ())]) : Handlers Unit)
      [⟨"1", "a", "b", JsonObj.nil, "t", none⟩,
       ⟨"2", "a", "b", JsonObj.nil, "u", none⟩] =
      [.invoked ⟨"1", "a", "b", JsonObj.nil, "t", none⟩ (Except.ok ()),
       .invoked ⟨"2", "a", "b", JsonObj.nil, "u", none⟩ (Except.ok ())] ∧
    processMessages (([] : Handlers Unit))
      [⟨"1", "a", "b", JsonObj.nil, "t", none⟩] =
      [.noHandler ⟨"1", "a", "b", JsonObj.nil, "t", none⟩] := by
  constructor
  · have h := (claim_c10 (ε := Unit) [("unknown", fun _ => Except.ok ())]
      ⟨"1", "a", "b", JsonObj.nil, "t", none⟩
      [⟨"2", "a", "b", JsonObj.nil, "u", none⟩] rfl).2.1
      (fun _ => Except.ok ()) rfl
    simpa using h
  · have h := (claim_c10 (ε := Unit) []
      ⟨"1", "a", "b", JsonObj.nil, "t", none⟩ [] rfl).2.2 rfl
    simpa using h
